import Mathlib

/-!
A shallow embedding of the `hermes_monitor` repository: the product
extraction heuristics of `get_product.py` and the filter / dedup /
cooldown logic of `main.py`, together with theorems checking the
specification's claims against those definitions.

Modelling conventions: Python dict lookups that may miss are `Option`;
Python truthiness of a string is nonemptiness; sets of strings are lists
queried by membership; timestamps are naturals; one fetched document is a
`Node` tree (the BeautifulSoup object), and a failed fetch is `none`.
Case folding is ASCII (`strLower`), which agrees with Python on
every token the code compares.
-/

namespace Hermes

/-- Python `needle in hay` on character lists. -/
def containsSub (needle : List Char) : List Char → Bool
  | [] => needle.isEmpty
  | c :: rest => needle.isPrefixOf (c :: rest) || containsSub needle rest

/-- Python `needle in hay` for strings (case-sensitive substring test). -/
def strContains (hay needle : String) : Bool :=
  containsSub needle.data hay.data

/-- Python `s.lower()` (ASCII case folding, which covers every cased
character the code compares). -/
def strLower (s : String) : String := ⟨s.data.map Char.toLower⟩

/-- Python `s.strip()`: drop whitespace from both ends. -/
def strTrim (s : String) : String :=
  ⟨((s.data.dropWhile Char.isWhitespace).reverse.dropWhile Char.isWhitespace).reverse⟩

/-- Python truthiness of a string: is it empty? -/
def strIsEmpty (s : String) : Bool := s.data.isEmpty

/-- Python `s.startswith(pre)`. -/
def strStarts (s pre : String) : Bool := pre.data.isPrefixOf s.data

/-- Helper for `splitOnChar`, accumulating the current piece reversed. -/
def splitOnCharAux (sep : Char) : List Char → List Char → List String
  | [], acc => [⟨acc.reverse⟩]
  | c :: cs, acc =>
    if c = sep then ⟨acc.reverse⟩ :: splitOnCharAux sep cs []
    else splitOnCharAux sep cs (c :: acc)

/-- Python `s.split(sep)` for a one-character separator. -/
def splitOnChar (sep : Char) (s : String) : List String := splitOnCharAux sep s.data []

/-- Python `s.strip(chars)`: drop the given characters from both ends. -/
def stripSet (s : String) (cs : List Char) : String :=
  ⟨((s.data.dropWhile (fun c => cs.contains c)).reverse.dropWhile
      (fun c => cs.contains c)).reverse⟩

/-- Helper for `splitLinesStr`, accumulating the current line reversed. -/
def splitLinesAux : List Char → List Char → List String
  | [], acc => [⟨acc.reverse⟩]
  | '\r' :: '\n' :: cs, acc => ⟨acc.reverse⟩ :: splitLinesAux cs []
  | '\r' :: cs, acc => ⟨acc.reverse⟩ :: splitLinesAux cs []
  | '\n' :: cs, acc => ⟨acc.reverse⟩ :: splitLinesAux cs []
  | c :: cs, acc => splitLinesAux cs (c :: acc)

/-- Python `s.splitlines()` for the line breaks that occur here; a trailing
break yields a trailing empty piece, which every caller filters away. -/
def splitLinesStr (s : String) : List String := splitLinesAux s.data []

/-- A parsed HTML tree (the soup): element tags carrying attributes and
children, and text nodes.  A multi-valued attribute (class) is modelled as
its whitespace-joined string, matching how the code joins list values. -/
inductive Node where
  | text : String → Node
  | elem : String → List (String × String) → List Node → Node

mutual
/-- All strings of a subtree in document order (BeautifulSoup `strings`). -/
def nodeStrings : Node → List String
  | .text s => [s]
  | .elem _ _ cs => listStrings cs
/-- `nodeStrings` over a list of siblings. -/
def listStrings : List Node → List String
  | [] => []
  | c :: cs => nodeStrings c ++ listStrings cs
end

/-- BeautifulSoup `get_text(sep, strip=True)`: strip every string, drop the
blank ones, join with the separator. -/
def getTextSep (n : Node) (sep : String) : String :=
  String.intercalate sep (((nodeStrings n).map strTrim).filter (fun s => !strIsEmpty s))

/-- The attribute list of a node (empty for text nodes). -/
def attrsOf : Node → List (String × String)
  | .text _ => []
  | .elem _ al _ => al

/-- Python `tag.get(key)`. -/
def attrGet (n : Node) (key : String) : Option String :=
  ((attrsOf n).find? (fun a => a.1 == key)).map (fun a => a.2)

/-- The tag name of an element node. -/
def tagNameOf : Node → Option String
  | .text _ => none
  | .elem nm _ _ => some nm

mutual
/-- Descendant element tags of a node in document order, the node itself
excluded: `container.find_all(True)`. -/
def nodeTags : Node → List Node
  | .text _ => []
  | .elem _ _ cs => listTags cs
/-- `nodeTags` over a list of siblings, each listed before its descendants. -/
def listTags : List Node → List Node
  | [] => []
  | c :: cs =>
    (match c with
     | .text _ => []
     | .elem nm al k => [Node.elem nm al k]) ++ nodeTags c ++ listTags cs
end

/-- `soup.find_all("a", href=re.compile(r"/product/"))` membership test: an
anchor tag whose href attribute contains "/product/". -/
def isProductAnchor (n : Node) : Bool :=
  tagNameOf n == some "a" &&
    (match attrGet n "href" with
     | some h => strContains h "/product/"
     | none => false)

mutual
/-- Descendant product anchors, each paired with its ancestor chain (nearest
parent first, ending at the root), in document order. -/
def anchorsNode (ancs : List Node) : Node → List (Node × List Node)
  | .text _ => []
  | .elem nm al cs => anchorsList (Node.elem nm al cs :: ancs) cs
/-- `anchorsNode` over a list of siblings. -/
def anchorsList (ancs : List Node) : List Node → List (Node × List Node)
  | [] => []
  | c :: cs =>
    ((if isProductAnchor c then [(c, ancs)] else []) ++ anchorsNode ancs c)
      ++ anchorsList ancs cs
end

/-- The product anchors of a document (the soup root is not a candidate). -/
def soupAnchors (soup : Node) : List (Node × List Node) := anchorsNode [] soup

/-- Ascend at most four ancestor levels from the anchor, stopping early at
the document root, to reach the card container. -/
def containerOf (anchor : Node) (ancs : List Node) : Node :=
  (ancs.take 4).getLastD anchor

/-! ## get_product.py -/

def BASE_URL : String := "https://www.hermes.com"

/-- `is_bag_item`: multi-lingual name-based category classification. -/
def is_bag_item (name : String) : Bool :=
  let n := strLower name
  let exclude_tokens := ["strap", "shoulder strap", "bandouliere", "bandoulière",
    "belt", "ceinture"]
  if exclude_tokens.any (fun tok => strContains n tok) then false
  else
    let bag_tokens := ["bag", "sac", "sacoche", "sac à main", "sac a main", "pouch",
      "pochette", "clutch", "backpack", "sac à dos", "sac a dos", "cab", "hobo",
      "tote", "besace"]
    bag_tokens.any (fun tok => strContains n tok)

/-- `_pick_price_line`: the first line containing a digit. -/
def pick_price_line (lines : List String) : Option String :=
  lines.find? (fun line => line.data.any Char.isDigit)

/-- The color labels recognised by `_pick_color_line`, in source order. -/
def colorLabels : List String :=
  ["color", "couleur", "farbe", "coloris", "顏色", "颜色", "カラー"]

/-- Python `line.split(":", 1)[1]` when the line has a colon. -/
def afterColon (s : String) : Option String :=
  match s.data.dropWhile (fun c => c ≠ ':') with
  | [] => none
  | _ :: rest => some ⟨rest⟩

/-- The value taken from the line after a label line, when acceptable. -/
def nextLineVal : List String → Option String
  | [] => none
  | nxt :: _ =>
    let v := strTrim nxt
    if !strIsEmpty v && v ≠ ":" then some v else none

/-- `_pick_color_line`: scan for a line holding a color label; take the text
after an inline colon, else the next line; keep scanning on failure. -/
def pick_color_line : List String → Option String
  | [] => none
  | line :: rest =>
    if colorLabels.any (fun lab => strContains (strLower line) lab) then
      match afterColon line with
      | some t =>
        let tail := strTrim t
        if !strIsEmpty tail && tail ≠ ":" then some tail
        else
          match nextLineVal rest with
          | some v => some v
          | none => pick_color_line rest
      | none =>
        match nextLineVal rest with
        | some v => some v
        | none => pick_color_line rest
    else pick_color_line rest

/-- The alternatives of the color regex in `_extract_color_from_container`,
in pattern order. -/
def regexLabels : List String :=
  ["color", "couleur", "coloris", "farbe", "顏色", "颜色", "カラー"]

/-- Case-insensitive literal match of `pat` as a prefix, returning the rest
of the input on success. -/
def ciDropLit : List Char → List Char → Option (List Char)
  | [], cs => some cs
  | _ :: _, [] => none
  | p :: ps, c :: cs => if p.toLower = c.toLower then ciDropLit ps cs else none

/-- A maximal run of the literal `s` under IGNORECASE (the `s*` piece that
the doubled backslash left behind in the source pattern). -/
def dropSRun (cs : List Char) : List Char :=
  cs.dropWhile (fun c => c = 's' || c = 'S')

/-- Characters admitted by the captured class `[^,;\\n]+` under IGNORECASE:
everything except a comma, a semicolon, a backslash, and n/N (the doubled
backslash makes backslash and the letter n two separate literals). -/
def capOk (c : Char) : Bool :=
  !(c = ',' || c = ';' || c = '\\' || c = 'n' || c = 'N')

/-- The capture part of the pattern after the colon: a literal backslash,
`s*`, then a nonempty captured run; the greedy `s*` gives one character
back when the run after it cannot start the capture. -/
def matchCapture (cs : List Char) : Option String :=
  match cs with
  | [] => none
  | c :: cs4 =>
    if c = '\\' then
      let run := cs4.takeWhile (fun x => x = 's' || x = 'S')
      let rest := cs4.dropWhile (fun x => x = 's' || x = 'S')
      let v := rest.takeWhile capOk
      if !v.isEmpty then some ⟨v⟩
      else
        match run.getLast? with
        | some c2 => some ⟨[c2]⟩
        | none => none
    else none

/-- The pattern tail after a matched label: a literal backslash, `s*`, a
colon (ASCII or fullwidth), then the capture part. -/
def matchAfterLabel (cs : List Char) : Option String :=
  match cs with
  | [] => none
  | c :: cs1 =>
    if c = '\\' then
      match dropSRun cs1 with
      | [] => none
      | c2 :: cs3 => if c2 = ':' ∨ c2 = '：' then matchCapture cs3 else none
    else none

/-- Attempt the whole pattern at one position, trying the label alternatives
in order. -/
def tryLabelsAt (cs : List Char) : Option String :=
  regexLabels.findSome? (fun lab => (ciDropLit lab.data cs).bind matchAfterLabel)

/-- `re.search` for the (backslash-doubled) color pattern: leftmost match,
returning the captured group. -/
def regexSearchBroken : List Char → Option String
  | [] => none
  | c :: rest =>
    match tryLabelsAt (c :: rest) with
    | some v => some v
    | none => regexSearchBroken rest

/-- The regex block of `_extract_color_from_container` (source lines
151-156): search the flattened text, strip spaces and colons off the
captured value, keep it when nonempty. -/
def regexColor (text : String) : Option String :=
  (regexSearchBroken text.data).bind (fun v =>
    let candidate := stripSet v [' ', ':']
    if strIsEmpty candidate then none else some candidate)

/-- Python `tag.get("class", [])` as class-name tokens. -/
def classesOf (n : Node) : List String :=
  splitOnChar ' ' ((attrGet n "class").getD "")

/-- The per-tag checks of the attribute-based color strategy, in source
order: itemprop color, then every attribute whose name contains "color",
then class names containing "color". -/
def tagColor (t : Node) : Option String :=
  (if attrGet t "itemprop" == some "color" then
     let txt := getTextSep t " "
     if !strIsEmpty txt then some txt else none
   else none)
  <|>
  ((attrsOf t).findSome? (fun a =>
     if strContains (strLower a.1) "color" then
       if !strIsEmpty a.2 then
         let cleaned := stripSet a.2 [' ', ':']
         if !strIsEmpty cleaned then some cleaned else none
       else none
     else none))
  <|>
  (if (classesOf t).any (fun cls => strContains (strLower cls) "color") then
     let txt := getTextSep t " "
     if !strIsEmpty txt && txt ≠ ":" then some txt else none
   else none)

/-- `container.get_text("\n", strip=True)`. -/
def containerText (c : Node) : String := getTextSep c "\n"

/-- The stripped nonempty lines of the flattened container text. -/
def containerLines (c : Node) : List String :=
  ((splitLinesStr (containerText c)).map strTrim).filter (fun l => !strIsEmpty l)

/-- `_extract_color_from_container`: attribute hints over every descendant
tag, then the regex over the flattened text, then the label line scan. -/
def extract_color_from_container (container : Node) : Option String :=
  match (nodeTags container).findSome? tagColor with
  | some c => some c
  | none =>
    match regexColor (containerText container) with
    | some c => some c
    | none => pick_color_line (containerLines container)

/-- A product record; Python dict fields that can be absent are `Option`. -/
structure Product where
  name : Option String
  color : Option String
  price : Option String
  unavailable : Bool
  url : Option String
  is_bag : Bool
  region : Option String
  matched_include : Option String
deriving DecidableEq, Repr

/-- The availability markers scanned over the lowercased lines. -/
def unavailableMarkers : List String :=
  ["unavailable", "out of stock", "épuisé", "epuise", "indisponible",
   "momentanément indisponible", "currently unavailable"]

/-- One anchor of the `extract_products_from_soup` loop: skip it when its
visible text is empty or its href is missing, otherwise build the (name,
url) key and the record from the card container. -/
def anchorRecord (a : Node × List Node) : Option ((String × String) × Product) :=
  let name := getTextSep a.1 ""
  if strIsEmpty name then none
  else
    match attrGet a.1 "href" with
    | none => none
    | some href =>
      if strIsEmpty href then none
      else
        let url := if strStarts href "http" then href else BASE_URL ++ href
        let container := containerOf a.1 a.2
        let lines := containerLines container
        let price :=
          match lines.find? (fun line => strContains line "€") with
          | some p => some p
          | none => pick_price_line lines
        some ((name, url),
          { name := some name
            color := extract_color_from_container container
            price := price
            unavailable := lines.any (fun low =>
              unavailableMarkers.any (fun m => strContains (strLower low) m))
            url := some url
            is_bag := is_bag_item name
            region := none
            matched_include := none })

/-- The dict-building loop of `extract_products_from_soup`: anchors whose
(name, url) key was already seen are skipped, so the first occurrence wins;
output order is key insertion order. -/
def extractLoop : List (Node × List Node) → List (String × String) → List Product
  | [], _ => []
  | a :: rest, seenKeys =>
    match anchorRecord a with
    | none => extractLoop rest seenKeys
    | some kr =>
      if seenKeys.contains kr.1 then extractLoop rest seenKeys
      else kr.2 :: extractLoop rest (kr.1 :: seenKeys)

/-- `extract_products_from_soup`. -/
def extract_products_from_soup (soup : Node) : List Product :=
  extractLoop (soupAnchors soup) []

/-- `get_all_products` as the scheduler observes it: `none` stands for the
fetch signalling Unavailable (every candidate URL failed), in which case the
empty list is returned; otherwise the fetched document is parsed. -/
def get_all_products (fetchResult : Option Node) : List Product :=
  match fetchResult with
  | none => []
  | some soup => extract_products_from_soup soup

/-! ## main.py -/

/-- The region gate condition of the `filter_products` loop (source lines
159-162): with a restriction present, reject when the lowercased region is
empty or not in the lowercased allow-list. -/
def regionRejected (rl : Option (List String)) (regionLow : String) : Bool :=
  match rl with
  | none => false
  | some l => strIsEmpty regionLow || !(l.contains regionLow)

/-- One product against one rule set: the body of the `filter_products`
loop.  `ip` holds the nonempty include keywords paired with their lowercase
forms, `el` the lowercased nonempty exclude keywords, `rl` the lowercased
nonempty allowed regions when a region restriction applies.  Returns the
annotated copy when the product passes every gate. -/
def filterOne (ip : List (String × String)) (el : List String) (ra ob : Bool)
    (rl : Option (List String)) (p : Product) : Option Product :=
  let nameLow := strLower (p.name.getD "")
  if regionRejected rl (strLower (p.region.getD "")) then none
  else
    let mi := (ip.find? (fun pr => strContains nameLow pr.2)).map (fun pr => pr.1)
    if !ip.isEmpty && mi.isNone then none
    else if el.any (fun k => strContains nameLow k) then none
    else if ob && !p.is_bag && mi.isNone then none
    else if ra && p.unavailable then none
    else some { p with matched_include := mi }

/-- `filter_products` from `main.py`; `allowed_regions = none` is the
Python default `None`. -/
def filter_products (products : List Product)
    (include_keywords exclude_keywords : List String)
    (require_available only_bags : Bool)
    (allowed_regions : Option (List String)) : List Product :=
  let ip := (include_keywords.filter (fun k => !strIsEmpty k)).map (fun k => (k, strLower k))
  let el := (exclude_keywords.filter (fun k => !strIsEmpty k)).map (fun k => strLower k)
  match allowed_regions with
  | none => products.filterMap (filterOne ip el require_available only_bags none)
  | some rs =>
    let rl := (rs.filter (fun r => !strIsEmpty r)).map (fun r => strLower r)
    if rl.isEmpty then []
    else products.filterMap (filterOne ip el require_available only_bags (some rl))

/-- Python truthiness of `item.get("url")`. -/
def urlTruthy (p : Product) : Bool :=
  match p.url with
  | some u => !strIsEmpty u
  | none => false

/-- The url string of a product, defaulting to the empty string. -/
def urlD (p : Product) : String := p.url.getD ""

/-- Python `item.get("url") in seen` against a set of already-notified
urls (false when the url is missing). -/
def seenHas (seen : List String) (u : Option String) : Bool :=
  match u with
  | some s => seen.contains s
  | none => false

/-- `to_notify_raw` (source line 535): every filtered product in
notify-every-poll mode, else only those whose url is not in the global
seen set. -/
def to_notify_raw (filtered : List Product) (send_every_poll : Bool)
    (seen : List String) : List Product :=
  if send_every_poll then filtered
  else filtered.filter (fun item => !seenHas seen item.url)

/-- The round-internal dedup by url (source lines 537-545); `rs` is the
round's seen-url set. -/
def dedupRound : List Product → List String → List Product
  | [], _ => []
  | item :: rest, rs =>
    if urlTruthy item && rs.contains (urlD item) then dedupRound rest rs
    else if urlTruthy item then item :: dedupRound rest (urlD item :: rs)
    else item :: dedupRound rest rs

/-- The broadcast send loop (source lines 547-559): re-check availability,
record the url in the global seen set unless notify-every-poll is on, then
send.  Returns the items actually sent and the updated seen set. -/
def notifyLoop (ra sep : Bool) : List Product → List String → List Product × List String
  | [], seen => ([], seen)
  | item :: rest, seen =>
    if ra && item.unavailable then notifyLoop ra sep rest seen
    else
      let seen1 := if !sep && urlTruthy item then urlD item :: seen else seen
      let out := notifyLoop ra sep rest seen1
      (item :: out.1, out.2)

/-- The broadcast half of one round, from the round's filtered products:
global-seen filtering, round-internal dedup, then the send loop. -/
def broadcastNotify (ra sep : Bool) (filtered : List Product)
    (seen : List String) : List Product × List String :=
  notifyLoop ra sep (dedupRound (to_notify_raw filtered sep seen) []) seen

/-- The broadcast pipeline of one round from the merged product list
(source lines 524-559); the broadcast filter passes no region list. -/
def broadcastRound (inc exc : List String) (ra ob sep : Bool)
    (combined : List Product) (seen : List String) : List Product × List String :=
  broadcastNotify ra sep (filter_products combined inc exc ra ob none) seen

/-- Iterated poll rounds threading the global seen set; each entry of the
input is one round's merged product list, each entry of the output that
round's broadcast sends. -/
def runRounds (inc exc : List String) (ra ob sep : Bool) :
    List (List Product) → List String → List (List Product) × List String
  | [], seen => ([], seen)
  | r :: rs, seen =>
    let o := broadcastRound inc exc ra ob sep r seen
    let rest := runRounds inc exc ra ob sep rs o.2
    (o.1 :: rest.1, rest.2)

/-- The per-recipient LINE loop for one user within one round (source lines
582-600), threading that user's per-round seen-url set: skip urls already
sent to this user this round, evaluate the user's own rule set on the single
item, record the url and send on a match. -/
def lineUserLoop (inc exc : List String) (ra ob : Bool) (regs : Option (List String)) :
    List Product → List String → List Product × List String
  | [], s => ([], s)
  | item :: rest, s =>
    if urlTruthy item && s.contains (urlD item) then lineUserLoop inc exc ra ob regs rest s
    else if (filter_products [item] inc exc ra ob regs).isEmpty then
      lineUserLoop inc exc ra ob regs rest s
    else
      let s1 := if urlTruthy item then urlD item :: s else s
      let out := lineUserLoop inc exc ra ob regs rest s1
      (item :: out.1, out.2)

/-- One user's LINE sends for one round; the per-round seen set starts
empty because `line_round_seen` is cleared at the top of every round. -/
def lineUserRound (inc exc : List String) (ra ob : Bool) (regs : Option (List String))
    (combined : List Product) : List Product :=
  (lineUserLoop inc exc ra ob regs combined []).1

/-- Tag every fetched record with its catalog variant's region. -/
def setRegion (r : String) (p : Product) : Product := { p with region := some r }

/-- One secondary variant's fetch gate for one round (the fr/tw/jp blocks of
`run_loop`, source lines 478-518): fetch only when the cooldown has expired,
and push `next_allowed` forward by the configured pause when the fetch
yields no products.  Returns the round's products for this variant, the
`next_allowed` timestamp after the round, and whether a fetch was
attempted. -/
def secondaryFetch (pause now next_allowed : Nat) (fetchResult : Option Node)
    (region : String) : List Product × Nat × Bool :=
  if next_allowed ≤ now then
    let ps := (get_all_products fetchResult).map (setRegion region)
    (ps, if ps.isEmpty then now + 60 * pause else next_allowed, true)
  else ([], next_allowed, false)

/-- The per-variant cooldown timestamps held across rounds. -/
structure CooldownState where
  frNext : Nat
  twNext : Nat
  jpNext : Nat
deriving DecidableEq, Repr

/-- The outcome of the fetch phase of one round. -/
structure FetchOutcome where
  mainProducts : List Product
  frProducts : List Product
  twProducts : List Product
  jpProducts : List Product
  state : CooldownState
  frAttempted : Bool
  twAttempted : Bool
  jpAttempted : Bool
deriving Repr

/-- The fetch phase of one round (source lines 471-522): the primary
scraper is fetched unconditionally; each configured secondary variant is
fetched through its cooldown gate. -/
def roundFetchPhase (now : Nat) (st : CooldownState)
    (frPause twPause jpPause : Nat) (hasFr hasTw hasJp : Bool)
    (mainFetch frFetch twFetch jpFetch : Option Node) : FetchOutcome :=
  let products := (get_all_products mainFetch).map (setRegion "EU_MAIN")
  let fr := if hasFr then secondaryFetch frPause now st.frNext frFetch "FR"
            else ([], st.frNext, false)
  let tw := if hasTw then secondaryFetch twPause now st.twNext twFetch "TW"
            else ([], st.twNext, false)
  let jp := if hasJp then secondaryFetch jpPause now st.jpNext jpFetch "JP"
            else ([], st.jpNext, false)
  { mainProducts := products
    frProducts := fr.1
    twProducts := tw.1
    jpProducts := jp.1
    state := { frNext := fr.2.1, twNext := tw.2.1, jpNext := jp.2.1 }
    frAttempted := fr.2.2
    twAttempted := tw.2.2
    jpAttempted := jp.2.2 }

/-- Iterate one secondary variant's gate over successive rounds, threading
`next_allowed`; each input entry is a round's clock value and fetch result,
each output entry records whether that round attempted the fetch. -/
def runSecondary (pause : Nat) (region : String) :
    Nat → List (Nat × Option Node) → List (Nat × Bool × List Product)
  | _, [] => []
  | na, (now, f) :: rest =>
    let o := secondaryFetch pause now na f region
    (now, o.2.2, o.1) :: runSecondary pause region o.2.1 rest

/-! ## Derived views of the filter gates, for stating properties -/

/-- The lowercased name the filter compares against. -/
def nameLowOf (p : Product) : String := strLower (p.name.getD "")

/-- The include pairs `filter_products` builds. -/
def includePairs (inc : List String) : List (String × String) :=
  (inc.filter (fun k => !strIsEmpty k)).map (fun k => (k, strLower k))

/-- The lowercased nonempty exclude keywords `filter_products` builds. -/
def excludeLower (exc : List String) : List String :=
  (exc.filter (fun k => !strIsEmpty k)).map (fun k => strLower k)

/-- The include keyword the filter would record for this product. -/
def matchedInclude (inc : List String) (p : Product) : Option String :=
  ((includePairs inc).find? (fun pr => strContains (nameLowOf p) pr.2)).map
    (fun pr => pr.1)

/-- Does some nonempty exclude keyword hit the product's name? -/
def excludeHit (exc : List String) (p : Product) : Bool :=
  (excludeLower exc).any (fun k => strContains (nameLowOf p) k)

/-- The lowercased nonempty allowed regions `filter_products` builds. -/
def regionsLower (rs : List String) : List String :=
  (rs.filter (fun r => !strIsEmpty r)).map (fun r => strLower r)

/-- Does the product survive the region gate (the early empty-allow-list
return included)? -/
def regionPass (regs : Option (List String)) (p : Product) : Bool :=
  match regs with
  | none => true
  | some rs =>
    !(regionsLower rs).isEmpty && !(strIsEmpty (strLower (p.region.getD ""))) &&
      (regionsLower rs).contains (strLower (p.region.getD ""))

/-! ## Lemmas about one filter evaluation -/

theorem strIsEmpty_eq_false {s : String} (h : s ≠ "") : strIsEmpty s = false := by
  cases s with
  | mk d =>
    cases d with
    | nil => exact absurd rfl h
    | cons c cs => rfl

theorem filterMap_singleton {α β : Type} (f : α → Option β) (x : α) :
    List.filterMap f [x] = (f x).toList := by
  cases h : f x <;> simp [List.filterMap_cons, h]

theorem optMap_toList_isEmpty {α β : Type} (o : Option α) (g : α → β) :
    ((o.map g).toList).isEmpty = (o.toList).isEmpty := by
  cases o <;> rfl

theorem filterOne_none_region (ip : List (String × String)) (el : List String)
    (ra ob : Bool) (p : Product) (r : Option String) :
    filterOne ip el ra ob none { p with region := r } =
      (filterOne ip el ra ob none p).map (fun q => { q with region := r }) := by
  rcases p with ⟨nm, co, pr, un, ur, ib, rg, mi⟩
  simp only [filterOne, regionRejected]
  split_ifs <;> simp


theorem filterOne_of_exclude (ip : List (String × String)) (el : List String)
    (ra ob : Bool) (rl : Option (List String)) (p : Product)
    (h : el.any (fun k => strContains (nameLowOf p) k) = true) :
    filterOne ip el ra ob rl p = none := by
  unfold filterOne
  simp only [nameLowOf] at h
  split
  · rfl
  · simp [h]

theorem filterOne_of_unavailable (ip : List (String × String)) (el : List String)
    (ob : Bool) (rl : Option (List String)) (p : Product)
    (h : p.unavailable = true) :
    filterOne ip el true ob rl p = none := by
  unfold filterOne
  split
  · rfl
  · simp [h]

theorem filterOne_accept (ip : List (String × String)) (el : List String)
    (ra ob : Bool) (rl : Option (List String)) (p : Product) (kw : String)
    (hreg : regionRejected rl (strLower (p.region.getD "")) = false)
    (hmi : (ip.find? (fun pr => strContains (nameLowOf p) pr.2)).map
        (fun pr => pr.1) = some kw)
    (hexc : el.any (fun k => strContains (nameLowOf p) k) = false)
    (hav : ra = true → p.unavailable = false) :
    filterOne ip el ra ob rl p = some { p with matched_include := some kw } := by
  unfold filterOne
  simp only [nameLowOf] at hmi hexc
  rw [if_neg (by simp [hreg])]
  rw [hmi]
  have hunav : (ra && p.unavailable) = false := by
    cases ra with
    | false => simp
    | true => simp [hav rfl]
  simp [hexc, hunav]

theorem filterOne_of_region (ip : List (String × String)) (el : List String)
    (ra ob : Bool) (rl : Option (List String)) (p : Product)
    (h : regionRejected rl (strLower (p.region.getD "")) = true) :
    filterOne ip el ra ob rl p = none := by
  simp only [filterOne]
  simp [h]

theorem filter_products_single_eq_nil (p : Product) (inc exc : List String)
    (ra ob : Bool) (regs : Option (List String))
    (h : ∀ rl, filterOne (includePairs inc) (excludeLower exc) ra ob rl p = none) :
    filter_products [p] inc exc ra ob regs = [] := by
  cases regs with
  | none =>
    have h0 := h none
    simp only [includePairs, excludeLower] at h0
    simp [filter_products, h0]
  | some rs =>
    have h0 := h (some (regionsLower rs))
    simp only [includePairs, excludeLower, regionsLower] at h0
    simp only [filter_products]
    split
    · rfl
    · simp [h0]

/-- C1: `filter_products` gate precedence: an exclude-keyword hit rejects
the product (even when an include keyword matched, since the conclusion
holds unconditionally on the include state); with the category restriction
set, a non-category product is still accepted when an include keyword
matched and every other gate passes; with `require_available` set, an
unavailable product is rejected unconditionally. -/
theorem C1_filter_precedence (p : Product) (inc exc : List String) (ra ob : Bool)
    (regs : Option (List String)) :
    (∀ k ∈ exc, k ≠ "" → strContains (nameLowOf p) (strLower k) = true →
      filter_products [p] inc exc ra ob regs = []) ∧
    (∀ kw, ob = true → p.is_bag = false → matchedInclude inc p = some kw →
      regionPass regs p = true → excludeHit exc p = false →
      (ra = true → p.unavailable = false) →
      filter_products [p] inc exc ra ob regs =
        [{ p with matched_include := some kw }]) ∧
    (ra = true → p.unavailable = true →
      filter_products [p] inc exc ra ob regs = []) := by
  refine ⟨?_, ?_, ?_⟩
  · intro k hk hkne hhit
    refine filter_products_single_eq_nil p inc exc ra ob regs (fun rl => ?_)
    refine filterOne_of_exclude _ _ _ _ _ _ ?_
    refine List.any_eq_true.mpr ⟨strLower k, ?_, hhit⟩
    exact List.mem_map.mpr ⟨k, List.mem_filter.mpr ⟨hk, by simp [strIsEmpty_eq_false hkne]⟩, rfl⟩
  · intro kw hob hbag hkw hregp hexcl hav
    have hmi : ((includePairs inc).find? (fun pr => strContains (nameLowOf p) pr.2)).map
        (fun pr => pr.1) = some kw := by
      simpa [matchedInclude] using hkw
    have hexc : (excludeLower exc).any (fun k => strContains (nameLowOf p) k) = false := by
      simpa [excludeHit] using hexcl
    cases regs with
    | none =>
      have hacc := filterOne_accept (includePairs inc) (excludeLower exc) ra ob none p kw
        (by simp [regionRejected]) hmi hexc hav
      simp only [includePairs, excludeLower] at hacc
      simp [filter_products, hacc]
    | some rs =>
      simp only [regionPass, Bool.and_eq_true, Bool.not_eq_eq_eq_not, Bool.not_true] at hregp
      obtain ⟨⟨h1, h2⟩, h3⟩ := hregp
      have hrr : regionRejected (some (regionsLower rs)) (strLower (p.region.getD "")) = false := by
        simp only [regionRejected]
        rw [h2, h3]
        rfl
      have hacc := filterOne_accept (includePairs inc) (excludeLower exc) ra ob
        (some (regionsLower rs)) p kw hrr hmi hexc hav
      simp only [includePairs, excludeLower, regionsLower] at hacc
      simp only [regionsLower] at h1
      simp [filter_products, h1, hacc]
  · intro hra hunav
    subst hra
    exact filter_products_single_eq_nil p inc exc true ob regs
      (fun rl => filterOne_of_unavailable _ _ _ _ _ hunav)

/-- A bag product used to instantiate the filter claims. -/
def wProduct : Product :=
  { name := some "Kelly belt bag"
    color := none
    price := none
    unavailable := false
    url := some "https://www.hermes.com/product/w"
    is_bag := true
    region := some "FR"
    matched_include := none }

/-- Witness for C1: the three precedence facts at concrete inputs. -/
theorem C1_filter_precedence_witness :
    filter_products [wProduct] ["kelly"] ["belt"] true true none = [] ∧
    filter_products [{ wProduct with is_bag := false }] ["kelly"] [] true true none =
      [{ wProduct with is_bag := false, matched_include := some "kelly" }] ∧
    filter_products [{ wProduct with unavailable := true }] ["kelly"] [] true true none = [] := by
  refine ⟨?_, ?_, ?_⟩
  · exact (C1_filter_precedence wProduct ["kelly"] ["belt"] true true none).1 "belt"
      (by decide) (by decide) (by decide)
  · exact (C1_filter_precedence { wProduct with is_bag := false } ["kelly"] [] true true
      none).2.1 "kelly" rfl rfl (by decide) (by decide) (by decide) (fun _ => rfl)
  · exact (C1_filter_precedence { wProduct with unavailable := true } ["kelly"] [] true true
      none).2.2 rfl rfl

/-- C7: the region gate of `filter_products`: a present-but-empty allow-list
matches nothing at all, whatever the products and the other rules; an absent
allow-list imposes no region restriction (acceptance does not depend on the
product's region); a non-empty allow-list rejects a product whose region is
missing or not in the list after case folding. -/
theorem C7_region_allow_list (inc exc : List String) (ra ob : Bool) :
    (∀ ps, filter_products ps inc exc ra ob (some []) = []) ∧
    (∀ p r, (filter_products [{ p with region := r }] inc exc ra ob none).isEmpty =
      (filter_products [p] inc exc ra ob none).isEmpty) ∧
    (∀ p rs, (strIsEmpty (strLower (p.region.getD "")) ||
        !((regionsLower rs).contains (strLower (p.region.getD "")))) = true →
      filter_products [p] inc exc ra ob (some rs) = []) := by
  refine ⟨?_, ?_, ?_⟩
  · intro ps
    simp [filter_products]
  · intro p r
    have h := filterOne_none_region (includePairs inc) (excludeLower exc) ra ob p r
    simp only [includePairs, excludeLower] at h
    simp only [filter_products, filterMap_singleton]
    rw [h]
    exact optMap_toList_isEmpty _ _
  · intro p rs hfail
    cases hemp : (regionsLower rs).isEmpty with
    | true =>
      simp only [filter_products]
      simp only [regionsLower] at hemp
      simp [hemp]
    | false =>
      have hnone : filterOne (includePairs inc) (excludeLower exc) ra ob
          (some (regionsLower rs)) p = none :=
        filterOne_of_region _ _ _ _ _ _ (by simp [regionRejected]; simpa using hfail)
      simp only [includePairs, excludeLower, regionsLower] at hnone
      simp only [regionsLower] at hemp
      simp [filter_products, hemp, hnone]

/-- Witness for C7: the three region-gate facts at concrete inputs. -/
theorem C7_region_allow_list_witness :
    filter_products [wProduct] [] [] true true (some []) = [] ∧
    (filter_products [{ wProduct with region := some "JP" }] [] [] true true none).isEmpty =
      (filter_products [wProduct] [] [] true true none).isEmpty ∧
    filter_products [wProduct] [] [] true true (some ["tw", "jp"]) = [] := by
  refine ⟨?_, ?_, ?_⟩
  · exact (C7_region_allow_list [] [] true true).1 [wProduct]
  · exact (C7_region_allow_list [] [] true true).2.1 wProduct (some "JP")
  · exact (C7_region_allow_list [] [] true true).2.2 wProduct ["tw", "jp"] (by decide)

/-! ## C8: the Scenario-2 document -/

/-- The product anchor of the Scenario-2 document. -/
def kellyAnchor : Node :=
  Node.elem "a" [("href", "/product/kelly-bag")] [Node.text "Kelly Bag"]

/-- A document whose card container (four ancestor levels above the anchor)
flattens to the lines "Kelly Bag", "Color", "Black", "€3,200",
"Unavailable", with no color-bearing attributes anywhere. -/
def kellyDoc : Node :=
  Node.elem "div" []
    [Node.elem "div" [] [Node.elem "div" [] [Node.elem "div" [] [kellyAnchor]]],
     Node.text "Color", Node.text "Black", Node.text "€3,200",
     Node.text "Unavailable"]

/-- C8: a product anchor whose card container flattens to the lines
"Kelly Bag", "Color", "Black", "€3,200", "Unavailable" extracts to a record
with color "Black", price "€3,200", unavailable true and the bag category
flag set. -/
theorem C8_scenario_two :
    containerLines kellyDoc = ["Kelly Bag", "Color", "Black", "€3,200", "Unavailable"] ∧
    extract_products_from_soup kellyDoc =
      [{ name := some "Kelly Bag"
         color := some "Black"
         price := some "€3,200"
         unavailable := true
         url := some "https://www.hermes.com/product/kelly-bag"
         is_bag := true
         region := none
         matched_include := none }] := by
  exact ⟨rfl, rfl⟩

/-! ## C6: color-extraction strategy order -/

theorem ciDropLit_suffix (pat : List Char) :
    ∀ cs rest : List Char, ciDropLit pat cs = some rest → rest <:+ cs := by
  induction pat with
  | nil =>
    intro cs rest h
    simp only [ciDropLit, Option.some.injEq] at h
    subst h
    exact List.suffix_rfl
  | cons p ps ih =>
    intro cs rest h
    cases cs with
    | nil => exact absurd h (by simp [ciDropLit])
    | cons c cs1 =>
      simp only [ciDropLit] at h
      split at h
      · exact (ih cs1 rest h).trans (List.suffix_cons c cs1)
      · exact absurd h (by simp)

theorem matchAfterLabel_backslash (cs : List Char) (v : String)
    (h : matchAfterLabel cs = some v) : '\\' ∈ cs := by
  cases cs with
  | nil => exact absurd h (by simp [matchAfterLabel])
  | cons c cs1 =>
    by_cases hc : c = '\\'
    · subst hc
      exact List.mem_cons_self _ _
    · rw [matchAfterLabel, if_neg hc] at h
      exact absurd h (by simp)

theorem tryLabelsAt_backslash (cs : List Char) (v : String)
    (h : tryLabelsAt cs = some v) : '\\' ∈ cs := by
  simp only [tryLabelsAt] at h
  revert h
  generalize regexLabels = labs
  induction labs with
  | nil => intro h; exact absurd h (by simp)
  | cons lab labs ih =>
    intro h
    rw [List.findSome?_cons] at h
    cases hb : (ciDropLit lab.data cs).bind matchAfterLabel with
    | some w =>
      obtain ⟨rest, hcd, hma⟩ := Option.bind_eq_some.mp hb
      exact (ciDropLit_suffix _ _ _ hcd).subset (matchAfterLabel_backslash _ _ hma)
    | none =>
      rw [hb] at h
      exact ih h

theorem regexSearchBroken_eq_none (cs : List Char) (h : '\\' ∉ cs) :
    regexSearchBroken cs = none := by
  induction cs with
  | nil => rfl
  | cons c rest ih =>
    have h1 : '\\' ∉ rest := fun hm => h (List.mem_cons_of_mem _ hm)
    cases htl : tryLabelsAt (c :: rest) with
    | some v => exact absurd (tryLabelsAt_backslash _ _ htl) h
    | none =>
      rw [regexSearchBroken, htl]
      exact ih h1

/-- C6 (amended): the color strategies run in the order: (a) attribute
hints, then (b) the regex over the flattened text — whose pattern, written
with doubled backslashes, only matches text containing literal backslash
characters — then (c) the label-based line scan, then (d) nothing; a later
strategy is consulted only when every earlier one produced nothing. -/
theorem C6_color_priority (container : Node) :
    (∀ c, (nodeTags container).findSome? tagColor = some c →
      extract_color_from_container container = some c) ∧
    ((nodeTags container).findSome? tagColor = none →
      ∀ c, regexColor (containerText container) = some c →
        extract_color_from_container container = some c) ∧
    ((nodeTags container).findSome? tagColor = none →
      regexColor (containerText container) = none →
      extract_color_from_container container =
        pick_color_line (containerLines container)) ∧
    (∀ s : String, '\\' ∉ s.data → regexColor s = none) := by
  refine ⟨?_, ?_, ?_, ?_⟩
  · intro c h
    simp [extract_color_from_container, h]
  · intro h c h2
    simp [extract_color_from_container, h, h2]
  · intro h h2
    simp [extract_color_from_container, h, h2]
  · intro s hs
    simp [regexColor, regexSearchBroken_eq_none s.data hs]

/-- A container with no color attributes whose single text line holds
backslashes around the colon. -/
def colorRegexDoc : Node := Node.elem "div" [] [Node.text "color\\:\\red"]

/-- A container with a color attribute on a descendant. -/
def attrColorDoc : Node :=
  Node.elem "div" [] [Node.elem "span" [("data-color", "Gold")] [Node.text "x"]]

/-- Witness for C6 (amended): each priority conjunct at a concrete
container. -/
theorem C6_color_priority_witness :
    extract_color_from_container attrColorDoc = some "Gold" ∧
    extract_color_from_container colorRegexDoc = some "red" ∧
    extract_color_from_container kellyDoc = some "Black" ∧
    regexColor "Color: Black" = none := by
  refine ⟨?_, ?_, ?_, ?_⟩
  · exact (C6_color_priority attrColorDoc).1 "Gold" rfl
  · exact (C6_color_priority colorRegexDoc).2.1 rfl "red" rfl
  · have h := (C6_color_priority kellyDoc).2.2.1 rfl rfl
    rw [h]
    rfl
  · exact (C6_color_priority kellyDoc).2.2.2 "Color: Black" (by decide)

/-- C6 counterexample: on `colorRegexDoc` the attribute strategy yields
nothing and the label line scan yields "\red", yet the code returns "red",
the regex value: the regex is consulted before the line scan, refuting the
claimed order (attributes, line scan, regex). -/
theorem C6_counterexample :
    (nodeTags colorRegexDoc).findSome? tagColor = none ∧
    pick_color_line (containerLines colorRegexDoc) = some "\\red" ∧
    regexColor (containerText colorRegexDoc) = some "red" ∧
    extract_color_from_container colorRegexDoc = some "red" ∧
    (some "red" : Option String) ≠ some "\\red" := by
  exact ⟨rfl, rfl, rfl, rfl, by decide⟩

/-! ## C4: per-variant cooldown -/

/-- A fetched document containing no product anchors. -/
def emptyDiv : Node := Node.elem "div" [] []

/-- C4 counterexample: at time 0 with no cooldown pending, a fetch that
returns a document (not Unavailable) which parses to zero products still
pushes the variant into cooldown (next_allowed 0 becomes 300 and the next
round at time 1 is skipped): the Active-to-Cooldown transition is keyed on
the emptiness of the product list, not on the fetch returning
Unavailable. -/
theorem C4_counterexample :
    (secondaryFetch 5 0 0 (some emptyDiv) "FR").2.1 = 300 ∧
    (secondaryFetch 5 0 0 (some emptyDiv) "FR").2.2 = true ∧
    some emptyDiv ≠ (none : Option Node) ∧
    (secondaryFetch 5 1 300 (some emptyDiv) "FR").2.2 = false := by
  refine ⟨rfl, rfl, by simp, rfl⟩

/-- C4 (amended): per-variant cooldown: a fetch attempt that yields an
empty product list (the fetch returned Unavailable, or the document parsed
to no products) sets next_allowed to now + 60*pause; while the clock is
before next_allowed the variant is skipped with unchanged state and no
products; from next_allowed on it is attempted again with no explicit
event; when a fetch is attempted and the pause is positive, the variant
enters cooldown exactly when the products list is empty; and the primary
scraper has no cooldown gate: its products are computed from its fetch
alone, whatever the cooldown state holds. -/
theorem C4_cooldown (pause t0 na : Nat) (f0 : Option Node) (reg : String) :
    (na ≤ t0 → get_all_products f0 = [] →
      (secondaryFetch pause t0 na f0 reg).2.1 = t0 + 60 * pause) ∧
    (∀ t na2 f1, t < na2 →
      (secondaryFetch pause t na2 f1 reg).2.2 = false ∧
      (secondaryFetch pause t na2 f1 reg).2.1 = na2 ∧
      (secondaryFetch pause t na2 f1 reg).1 = []) ∧
    (∀ t na2 f1, na2 ≤ t → (secondaryFetch pause t na2 f1 reg).2.2 = true) ∧
    (∀ rounds : List (Nat × Option Node), ∀ na2 : Nat,
      (∀ e ∈ rounds, e.1 < na2) →
      ∀ o ∈ runSecondary pause reg na2 rounds, o.2.1 = false) ∧
    (0 < pause → na ≤ t0 →
      ((secondaryFetch pause t0 na f0 reg).1 = [] ↔
        (secondaryFetch pause t0 na f0 reg).2.1 = t0 + 60 * pause)) ∧
    (∀ (now : Nat) (st : CooldownState) (p1 p2 p3 : Nat) (h1 h2 h3 : Bool)
        (mf ff tf jf : Option Node),
      (roundFetchPhase now st p1 p2 p3 h1 h2 h3 mf ff tf jf).mainProducts =
        (get_all_products mf).map (setRegion "EU_MAIN")) := by
  refine ⟨?_, ?_, ?_, ?_, ?_, ?_⟩
  · intro hle hg
    simp [secondaryFetch, hle, hg]
  · intro t na2 f1 hlt
    have : ¬ na2 ≤ t := by omega
    simp [secondaryFetch, this]
  · intro t na2 f1 hle
    simp [secondaryFetch, hle]
  · intro rounds
    induction rounds with
    | nil => intro na2 _ o ho; simp [runSecondary] at ho
    | cons e rest ih =>
      intro na2 hall o ho
      obtain ⟨now, f⟩ := e
      have hlt : now < na2 := hall (now, f) (List.mem_cons_self _ _)
      have hnle : ¬ na2 ≤ now := by omega
      rw [runSecondary] at ho
      simp only [secondaryFetch, if_neg hnle] at ho
      rcases List.mem_cons.mp ho with h | h
      · subst h; rfl
      · exact ih na2 (fun x hx => hall x (List.mem_cons_of_mem _ hx)) o h
  · intro hp hle
    simp only [secondaryFetch, if_pos hle]
    constructor
    · intro hempty
      simp only [List.map_eq_nil_iff] at hempty ⊢
      simp [hempty]
    · intro hna
      by_cases hg : ((get_all_products f0).map (setRegion reg)).isEmpty = true
      · exact List.isEmpty_iff.mp hg
      · rw [if_neg (by simp [hg])] at hna
        omega
  · intro now st p1 p2 p3 h1 h2 h3 mf ff tf jf
    rfl

/-- Witness for C4 (amended) at concrete inputs: a failed fetch at time 0
with pause 5 sets next_allowed 300; time 299 is skipped unchanged; time 300
is attempted; every intermediate round is skipped; the cooldown iff at a
successful fetch; and the primary fetch ignores the cooldown state. -/
theorem C4_cooldown_witness :
    (secondaryFetch 5 0 0 none "FR").2.1 = 0 + 60 * 5 ∧
    (secondaryFetch 5 299 300 none "FR").2.2 = false ∧
    (secondaryFetch 5 300 300 none "FR").2.2 = true ∧
    (∀ o ∈ runSecondary 5 "FR" 300 [(10, none), (200, some emptyDiv)], o.2.1 = false) ∧
    ((secondaryFetch 5 0 0 (some kellyDoc) "FR").1 = [] ↔
      (secondaryFetch 5 0 0 (some kellyDoc) "FR").2.1 = 0 + 60 * 5) ∧
    (roundFetchPhase 0 ⟨300, 300, 300⟩ 5 5 5 true true true (some kellyDoc)
        none none none).mainProducts =
      (get_all_products (some kellyDoc)).map (setRegion "EU_MAIN") := by
  have h := C4_cooldown 5 0 0 none "FR"
  refine ⟨h.1 (by omega) rfl, (h.2.1 299 300 none (by omega)).1,
    h.2.2.1 300 300 none (by omega), h.2.2.2.1 _ 300 (by decide),
    (C4_cooldown 5 0 0 (some kellyDoc) "FR").2.2.2.2.1 (by omega) (by omega),
    h.2.2.2.2.2 0 ⟨300, 300, 300⟩ 5 5 5 true true true (some kellyDoc) none none none⟩

/-! ## C5 and C9: extraction dedup and graceful degradation -/

/-- First-occurrence-wins dedup of parsed (key, record) pairs: the
reference view of the `extract_products_from_soup` dict loop. -/
def dedupFirst : List ((String × String) × Product) → List (String × String) →
    List ((String × String) × Product)
  | [], _ => []
  | kr :: rest, ks =>
    if ks.contains kr.1 then dedupFirst rest ks
    else kr :: dedupFirst rest (kr.1 :: ks)

theorem extractLoop_eq_dedupFirst (as : List (Node × List Node))
    (ks : List (String × String)) :
    extractLoop as ks = (dedupFirst (as.filterMap anchorRecord) ks).map (fun x => x.2) := by
  induction as generalizing ks with
  | nil => simp [extractLoop, dedupFirst]
  | cons a rest ih =>
    cases har : anchorRecord a with
    | none => simp [extractLoop, har, ih]
    | some kr =>
      simp only [extractLoop, har, List.filterMap_cons, dedupFirst]
      split <;> simp_all

theorem dedupFirst_subset (l : List ((String × String) × Product))
    (ks : List (String × String)) : ∀ x ∈ dedupFirst l ks, x ∈ l := by
  induction l generalizing ks with
  | nil => intro x hx; simp [dedupFirst] at hx
  | cons kr rest ih =>
    intro x hx
    rw [dedupFirst] at hx
    split at hx
    · exact List.mem_cons_of_mem _ (ih ks x hx)
    · rcases List.mem_cons.mp hx with h | h
      · exact h ▸ List.mem_cons_self _ _
      · exact List.mem_cons_of_mem _ (ih _ x h)

theorem dedupFirst_key_not_seen (l : List ((String × String) × Product))
    (ks : List (String × String)) : ∀ x ∈ dedupFirst l ks, ¬ ks.contains x.1 = true := by
  induction l generalizing ks with
  | nil => intro x hx; simp [dedupFirst] at hx
  | cons kr rest ih =>
    intro x hx
    rw [dedupFirst] at hx
    split at hx
    · exact ih ks x hx
    next hns =>
      rcases List.mem_cons.mp hx with h | h
      · subst h; exact hns
      · intro hk
        refine ih _ x h ?_
        rw [List.contains_cons, hk]
        simp

theorem dedupFirst_pairwise (l : List ((String × String) × Product))
    (ks : List (String × String)) :
    (dedupFirst l ks).Pairwise (fun x y => x.1 ≠ y.1) := by
  induction l generalizing ks with
  | nil => exact List.Pairwise.nil
  | cons kr rest ih =>
    rw [dedupFirst]
    split
    · exact ih ks
    · refine List.pairwise_cons.mpr ⟨?_, ih _⟩
      intro y hy heq
      have := dedupFirst_key_not_seen rest (kr.1 :: ks) y hy
      exact this (by simp [List.contains_cons, heq])

theorem dedupFirst_find (v : String × String) :
    ∀ (l : List ((String × String) × Product)) (ks : List (String × String)),
      ¬ ks.contains v = true →
      (dedupFirst l ks).find? (fun x => x.1 == v) = l.find? (fun x => x.1 == v) := by
  intro l
  induction l with
  | nil => intro ks _; simp [dedupFirst]
  | cons kr rest ih =>
    intro ks hv
    by_cases hk : kr.1 = v
    · have hc : ¬ ks.contains kr.1 = true := hk ▸ hv
      rw [dedupFirst, if_neg hc]
      rw [List.find?_cons_of_pos _ (by simp [hk]), List.find?_cons_of_pos _ (by simp [hk])]
    · rw [List.find?_cons_of_neg _ (by simp [hk]), dedupFirst]
      split
      · exact ih ks hv
      · rw [List.find?_cons_of_neg _ (by simp [hk])]
        refine ih _ ?_
        rw [List.contains_cons]
        simp only [Bool.or_eq_true, not_or]
        constructor
        · intro hbeq
          exact hk (Eq.symm (by simpa using hbeq))
        · exact hv

theorem find?_of_mem_pairwise (l : List ((String × String) × Product))
    (hpw : l.Pairwise (fun x y => x.1 ≠ y.1)) :
    ∀ x ∈ l, l.find? (fun y => y.1 == x.1) = some x := by
  induction l with
  | nil => intro x hx; simp at hx
  | cons kr rest ih =>
    intro x hx
    rcases List.mem_cons.mp hx with h | h
    · subst h
      exact List.find?_cons_of_pos _ (by simp)
    · have hne : kr.1 ≠ x.1 := (List.pairwise_cons.mp hpw).1 x h
      rw [List.find?_cons_of_neg _ (by simp; exact fun he => hne he)]
      exact ih (List.pairwise_cons.mp hpw).2 x h

theorem strIsEmpty_false_iff (s : String) : strIsEmpty s = false ↔ s ≠ "" := by
  constructor
  · intro h he
    subst he
    exact absurd h (by simp [strIsEmpty])
  · exact strIsEmpty_eq_false

theorem anchorRecord_fields (a : Node × List Node) (k : String × String) (p : Product)
    (h : anchorRecord a = some (k, p)) :
    p.name = some k.1 ∧ p.url = some k.2 ∧ k.1 ≠ "" ∧ k.2 ≠ "" := by
  simp only [anchorRecord] at h
  split at h
  · exact absurd h (by simp)
  next hne =>
    cases hh : attrGet a.1 "href" with
    | none => rw [hh] at h; exact absurd h (by simp)
    | some href =>
      rw [hh] at h
      split at h
      · exact absurd h (by simp)
      next href2 hhe =>
        cases Option.some.inj hhe
        split at h
        · exact absurd h (by simp)
        next hhe2 =>
          have h2 := Option.some.inj h
          have hk : (getTextSep a.1 "",
              if strStarts href "http" = true then href else BASE_URL ++ href) = k :=
            congrArg Prod.fst h2
          have hp := congrArg Prod.snd h2
          subst hp
          refine ⟨?_, ?_, ?_, ?_⟩
          · rw [← hk]
          · rw [← hk]
          · rw [← hk]
            exact (strIsEmpty_false_iff _).mp (by simpa using hne)
          · rw [← hk]
            show (if strStarts href "http" = true then href else BASE_URL ++ href) ≠ ""
            split
            · exact (strIsEmpty_false_iff _).mp (by simpa using hhe2)
            · intro habs
              have hd : (BASE_URL ++ href).data = [] := by rw [habs]
              rw [String.data_append] at hd
              simp [BASE_URL] at hd

/-- The Scenario-1 document: two anchors sharing the name "Kelly Bag" and
the same URL inside different card markup (the first card says "Black", the
second "Red"). -/
def dupCard (colorV : String) : Node :=
  Node.elem "section" []
    [Node.elem "div" [] [Node.elem "div" [] [Node.elem "div" [] [kellyAnchor]]],
     Node.text "Color", Node.text colorV]

/-- Two same-key anchors with different surrounding markup. -/
def dupDoc : Node := Node.elem "html" [] [dupCard "Black", dupCard "Red"]

/-- C5: extraction dedups by the (name, url) pair: output keys are pairwise
distinct; every output record is exactly the first parsed record carrying
its key (later same-key anchors cannot affect any field); and the two-anchor
same-key document yields exactly one record, built from the first anchor. -/
theorem C5_dedup_first_wins (soup : Node) :
    (extract_products_from_soup soup).Pairwise
      (fun p q => p.name ≠ q.name ∨ p.url ≠ q.url) ∧
    (∀ p ∈ extract_products_from_soup soup, ∃ nm u,
      p.name = some nm ∧ p.url = some u ∧
      ((soupAnchors soup).filterMap anchorRecord).find? (fun x => x.1 == (nm, u)) =
        some ((nm, u), p)) ∧
    extract_products_from_soup dupDoc =
      [{ name := some "Kelly Bag"
         color := some "Black"
         price := none
         unavailable := false
         url := some "https://www.hermes.com/product/kelly-bag"
         is_bag := true
         region := none
         matched_include := none }] := by
  refine ⟨?_, ?_, by rfl⟩
  · rw [extract_products_from_soup, extractLoop_eq_dedupFirst, List.pairwise_map]
    refine (dedupFirst_pairwise _ []).imp_of_mem ?_
    intro x y hx hy hne
    obtain ⟨a, _, hax⟩ := List.mem_filterMap.mp (dedupFirst_subset _ _ x hx)
    obtain ⟨b, _, hby⟩ := List.mem_filterMap.mp (dedupFirst_subset _ _ y hy)
    obtain ⟨hxn, hxu, _, _⟩ := anchorRecord_fields a x.1 x.2 (by rw [hax])
    obtain ⟨hyn, hyu, _, _⟩ := anchorRecord_fields b y.1 y.2 (by rw [hby])
    by_contra hcon
    rw [not_or, not_not, not_not] at hcon
    obtain ⟨hn, hu⟩ := hcon
    refine hne (Prod.ext ?_ ?_)
    · have h1 : some x.1.1 = some y.1.1 := by rw [← hxn, ← hyn, hn]
      exact Option.some.inj h1
    · have h2 : some x.1.2 = some y.1.2 := by rw [← hxu, ← hyu, hu]
      exact Option.some.inj h2
  · intro p hp
    rw [extract_products_from_soup, extractLoop_eq_dedupFirst] at hp
    obtain ⟨x, hxmem, hxp⟩ := List.mem_map.mp hp
    obtain ⟨a, _, hax⟩ := List.mem_filterMap.mp (dedupFirst_subset _ _ x hxmem)
    obtain ⟨hxn, hxu, _, _⟩ := anchorRecord_fields a x.1 x.2 (by rw [hax])
    refine ⟨x.1.1, x.1.2, by rw [← hxp]; exact hxn, by rw [← hxp]; exact hxu, ?_⟩
    have hfind := dedupFirst_find x.1 ((soupAnchors soup).filterMap anchorRecord) [] (by simp)
    have hmem := find?_of_mem_pairwise _ (dedupFirst_pairwise
      ((soupAnchors soup).filterMap anchorRecord) []) x hxmem
    rw [show ((x.1.1, x.1.2) : String × String) = x.1 from rfl, ← hfind, hmem, ← hxp]

/-- A document exercising the skip rules: an anchor with no href, a product
anchor with empty visible text, and a bare product anchor whose card has no
color, price or availability markup. -/
def bareDoc : Node :=
  Node.elem "div" []
    [Node.elem "a" [] [Node.text "No Href"],
     Node.elem "a" [("href", "/product/empty-name")] [],
     Node.elem "a" [("href", "/product/bare")] [Node.text "Bare Thing"]]

/-- C9: extraction is a total function of the document (it is defined by
structural recursion, so it returns on every input); every produced record
comes from an anchor with nonempty visible text and a present, nonempty
href; an anchor with empty visible text or no href yields no record; and on
a document with no price, color or availability markup the fields degrade
to none / none / false instead of failing. -/
theorem C9_graceful_degradation (soup : Node) :
    (∀ p ∈ extract_products_from_soup soup,
      (∃ nm, p.name = some nm ∧ nm ≠ "") ∧ ∃ u, p.url = some u ∧ u ≠ "") ∧
    (∀ a : Node × List Node, strIsEmpty (getTextSep a.1 "") = true →
      anchorRecord a = none) ∧
    (∀ a : Node × List Node, attrGet a.1 "href" = none → anchorRecord a = none) ∧
    extract_products_from_soup bareDoc =
      [{ name := some "Bare Thing"
         color := none
         price := none
         unavailable := false
         url := some "https://www.hermes.com/product/bare"
         is_bag := false
         region := none
         matched_include := none }] := by
  refine ⟨?_, ?_, ?_, by rfl⟩
  · intro p hp
    rw [extract_products_from_soup, extractLoop_eq_dedupFirst] at hp
    obtain ⟨x, hxmem, hxp⟩ := List.mem_map.mp hp
    obtain ⟨a, _, hax⟩ := List.mem_filterMap.mp (dedupFirst_subset _ _ x hxmem)
    obtain ⟨hxn, hxu, hk1, hk2⟩ := anchorRecord_fields a x.1 x.2 (by rw [hax])
    exact ⟨⟨x.1.1, by rw [← hxp]; exact hxn, hk1⟩, ⟨x.1.2, by rw [← hxp]; exact hxu, hk2⟩⟩
  · intro a h
    simp [anchorRecord, h]
  · intro a h
    simp [anchorRecord, h]

/-- The record extracted from `bareDoc`. -/
def bareRecord : Product :=
  { name := some "Bare Thing"
    color := none
    price := none
    unavailable := false
    url := some "https://www.hermes.com/product/bare"
    is_bag := false
    region := none
    matched_include := none }

/-- Witness for C9: the skip rules and nonempty identity fields at concrete
inputs. -/
theorem C9_graceful_degradation_witness :
    ((∃ nm, bareRecord.name = some nm ∧ nm ≠ "") ∧
      ∃ u, bareRecord.url = some u ∧ u ≠ "") ∧
    anchorRecord (Node.elem "a" [("href", "/product/empty-name")] [], [bareDoc]) = none ∧
    anchorRecord (Node.elem "a" [] [Node.text "No Href"], [bareDoc]) = none := by
  refine ⟨(C9_graceful_degradation bareDoc).1 bareRecord (by decide), ?_, ?_⟩
  · exact (C9_graceful_degradation bareDoc).2.1 _ (by decide)
  · exact (C9_graceful_degradation bareDoc).2.2.1 _ (by decide)

/-- The single record extracted from `dupDoc`. -/
def dupRecord : Product :=
  { name := some "Kelly Bag"
    color := some "Black"
    price := none
    unavailable := false
    url := some "https://www.hermes.com/product/kelly-bag"
    is_bag := true
    region := none
    matched_include := none }

/-- Witness for C5: the first-wins fact at the two-anchor document. -/
theorem C5_dedup_first_wins_witness :
    ∃ nm u, dupRecord.name = some nm ∧ dupRecord.url = some u ∧
      ((soupAnchors dupDoc).filterMap anchorRecord).find? (fun x => x.1 == (nm, u)) =
        some ((nm, u), dupRecord) := by
  exact (C5_dedup_first_wins dupDoc).2.1 dupRecord (by decide)

/-! ## Lemmas about the broadcast round and the LINE loop -/

/-- Sent items with a given url, the measure of the dedup claims. -/
def countUrl (v : String) (l : List Product) : Nat :=
  l.countP (fun p => p.url == some v)

theorem countUrl_cons (v : String) (p : Product) (l : List Product) :
    countUrl v (p :: l) = countUrl v l + if p.url == some v then 1 else 0 := by
  simp [countUrl, List.countP_cons]

theorem urlTruthy_iff (p : Product) :
    urlTruthy p = true ↔ ∃ u, p.url = some u ∧ u ≠ "" := by
  cases hu : p.url with
  | none => simp [urlTruthy, hu]
  | some u => simp [urlTruthy, hu, strIsEmpty_false_iff]

theorem urlD_eq (p : Product) (u : String) (h : p.url = some u) : urlD p = u := by
  simp [urlD, h]

theorem notifyLoop_sent (ra sep : Bool) :
    ∀ (l : List Product) (seen : List String),
      (notifyLoop ra sep l seen).1 = l.filter (fun p => !(ra && p.unavailable)) := by
  intro l
  induction l with
  | nil => intro seen; rfl
  | cons item rest ih =>
    intro seen
    by_cases hu : (ra && item.unavailable) = true
    · rw [notifyLoop, if_pos hu, ih, List.filter_cons_of_neg (by simp [hu])]
    · simp only [notifyLoop, if_neg hu]
      rw [ih, List.filter_cons_of_pos (by rw [show (ra && item.unavailable) = false by simpa using hu]; rfl)]

theorem notifyLoop_seen_mono (ra sep : Bool) :
    ∀ (l : List Product) (seen : List String) (v : String),
      v ∈ seen → v ∈ (notifyLoop ra sep l seen).2 := by
  intro l
  induction l with
  | nil => intro seen v hv; exact hv
  | cons item rest ih =>
    intro seen v hv
    by_cases hu : (ra && item.unavailable) = true
    · rw [notifyLoop, if_pos hu]
      exact ih seen v hv
    · rw [notifyLoop, if_neg hu]
      refine ih _ v ?_
      split
      · exact List.mem_cons_of_mem _ hv
      · exact hv

theorem notifyLoop_seen_of_sent (ra : Bool) :
    ∀ (l : List Product) (seen : List String) (p : Product) (v : String),
      p ∈ (notifyLoop ra false l seen).1 → p.url = some v → v ≠ "" →
      v ∈ (notifyLoop ra false l seen).2 := by
  intro l
  induction l with
  | nil => intro seen p v hp; simp [notifyLoop] at hp
  | cons item rest ih =>
    intro seen p v hp hurl hv
    by_cases hu : (ra && item.unavailable) = true
    · rw [notifyLoop, if_pos hu] at hp ⊢
      exact ih seen p v hp hurl hv
    · rw [notifyLoop, if_neg hu] at hp ⊢
      rcases List.mem_cons.mp hp with rfl | hp2
      · have ht : urlTruthy p = true := (urlTruthy_iff p).mpr ⟨v, hurl, hv⟩
        refine notifyLoop_seen_mono ra false rest _ v ?_
        simp only [Bool.not_false, Bool.true_and, ht, if_true]
        rw [urlD_eq p v hurl]
        exact List.mem_cons_self _ _
      · exact ih _ p v hp2 hurl hv

theorem notifyLoop_seen_char (ra : Bool) :
    ∀ (l : List Product) (seen : List String) (v : String),
      v ∈ (notifyLoop ra false l seen).2 ↔
        v ∈ seen ∨ ∃ p ∈ l, (ra && p.unavailable) = false ∧ p.url = some v ∧ v ≠ "" := by
  intro l
  induction l with
  | nil =>
    intro seen v
    simp [notifyLoop]
  | cons item rest ih =>
    intro seen v
    by_cases hu : (ra && item.unavailable) = true
    · rw [notifyLoop, if_pos hu, ih]
      constructor
      · rintro (h | ⟨p, hp, hpass, hurl, hvne⟩)
        · exact Or.inl h
        · exact Or.inr ⟨p, List.mem_cons_of_mem _ hp, hpass, hurl, hvne⟩
      · rintro (h | ⟨p, hp, hpass, hurl, hvne⟩)
        · exact Or.inl h
        · rcases List.mem_cons.mp hp with rfl | hp2
          · rw [hu] at hpass
            exact absurd hpass (by simp)
          · exact Or.inr ⟨p, hp2, hpass, hurl, hvne⟩
    · have hu' : (ra && item.unavailable) = false := by simpa using hu
      rw [notifyLoop, if_neg hu, ih]
      simp only [Bool.not_false, Bool.true_and]
      by_cases ht : urlTruthy item = true
      · obtain ⟨u, huu, hune⟩ := (urlTruthy_iff item).mp ht
        rw [if_pos ht, urlD_eq item u huu]
        constructor
        · rintro (hm | ⟨p, hp, hpass, hurl, hvne⟩)
          · rcases List.mem_cons.mp hm with rfl | hm2
            · exact Or.inr ⟨item, List.mem_cons_self _ _, hu', huu, hune⟩
            · exact Or.inl hm2
          · exact Or.inr ⟨p, List.mem_cons_of_mem _ hp, hpass, hurl, hvne⟩
        · rintro (h | ⟨p, hp, hpass, hurl, hvne⟩)
          · exact Or.inl (List.mem_cons_of_mem _ h)
          · rcases List.mem_cons.mp hp with rfl | hp2
            · rw [huu] at hurl
              have : v = u := (Option.some.inj hurl).symm
              subst this
              exact Or.inl (List.mem_cons_self _ _)
            · exact Or.inr ⟨p, hp2, hpass, hurl, hvne⟩
      · rw [if_neg ht]
        constructor
        · rintro (h | ⟨p, hp, hpass, hurl, hvne⟩)
          · exact Or.inl h
          · exact Or.inr ⟨p, List.mem_cons_of_mem _ hp, hpass, hurl, hvne⟩
        · rintro (h | ⟨p, hp, hpass, hurl, hvne⟩)
          · exact Or.inl h
          · rcases List.mem_cons.mp hp with rfl | hp2
            · exact absurd ((urlTruthy_iff p).mpr ⟨v, hurl, hvne⟩) ht
            · exact Or.inr ⟨p, hp2, hpass, hurl, hvne⟩

theorem dedupRound_sublist : ∀ (l : List Product) (rs : List String),
    (dedupRound l rs).Sublist l := by
  intro l
  induction l with
  | nil => intro rs; simp [dedupRound]
  | cons item rest ih =>
    intro rs
    rw [dedupRound]
    split
    · exact (ih rs).cons item
    · split
      · exact (ih _).cons₂ item
      · exact (ih rs).cons₂ item

theorem dedupRound_count (v : String) (hv : v ≠ "") :
    ∀ (l : List Product) (rs : List String),
      (rs.contains v = true → countUrl v (dedupRound l rs) = 0) ∧
      countUrl v (dedupRound l rs) ≤ 1 := by
  intro l
  induction l with
  | nil => intro rs; simp [dedupRound, countUrl]
  | cons item rest ih =>
    intro rs
    by_cases ht : urlTruthy item = true
    · obtain ⟨u, huu, hune⟩ := (urlTruthy_iff item).mp ht
      have hud : urlD item = u := urlD_eq item u huu
      by_cases hc : rs.contains u = true
      · rw [dedupRound, if_pos (by rw [ht, hud, hc]; rfl)]
        exact ih rs
      · have hc2 : rs.contains u = false := by simpa using hc
        rw [dedupRound, if_neg (by rw [hud, hc2]; simp), if_pos ht]
        by_cases huv : u = v
        · subst huv
          have hrest0 : countUrl u (dedupRound rest (urlD item :: rs)) = 0 :=
            (ih (urlD item :: rs)).1 (by rw [hud, List.contains_cons]; simp)
          constructor
          · intro hcon
            rw [hcon] at hc2
            exact absurd hc2 (by simp)
          · rw [countUrl_cons, hrest0]
            simp [huu]
        · have hne2 : (item.url == some v) = false := by
            rw [huu]
            simp [huv]
          constructor
          · intro hcv
            have hrest0 : countUrl v (dedupRound rest (urlD item :: rs)) = 0 :=
              (ih (urlD item :: rs)).1 (by rw [List.contains_cons, hcv]; simp)
            rw [countUrl_cons, hrest0, hne2]
            simp
          · have hle := (ih (urlD item :: rs)).2
            rw [countUrl_cons, hne2]
            simpa using hle
    · have ht2 : urlTruthy item = false := by simpa using ht
      rw [dedupRound, if_neg (by rw [ht2]; simp), if_neg ht]
      have hne2 : (item.url == some v) = false := by
        cases hx : item.url with
        | none => simp
        | some u2 =>
          have hemp : strIsEmpty u2 = true := by
            rw [urlTruthy, hx] at ht2
            simpa using ht2
          have hu2 : u2 = "" := by
            cases u2 with
            | mk d =>
              cases d with
              | nil => rfl
              | cons a b => exact absurd hemp (by simp [strIsEmpty])
          subst hu2
          simp [Ne.symm hv]
      constructor
      · intro hcv
        rw [countUrl_cons, (ih rs).1 hcv, hne2]
        simp
      · rw [countUrl_cons, hne2]
        simpa using (ih rs).2

theorem to_notify_raw_count_zero (filtered : List Product) (seen : List String)
    (v : String) (hseen : seen.contains v = true) :
    countUrl v (to_notify_raw filtered false seen) = 0 := by
  rw [countUrl, List.countP_eq_zero]
  intro p hp
  rw [show to_notify_raw filtered false seen =
      filtered.filter (fun item => !seenHas seen item.url) from rfl] at hp
  obtain ⟨_, hkeep⟩ := List.mem_filter.mp hp
  intro hbeq
  have hpu : p.url = some v := by simpa using hbeq
  rw [hpu] at hkeep
  rw [show seenHas seen (some v) = seen.contains v from rfl, hseen] at hkeep
  exact absurd hkeep (by simp)

theorem dedupRound_keeps_first (v : String) (hv : v ≠ "") :
    ∀ (l : List Product) (rs : List String) (q : Product),
      l.find? (fun p => p.url == some v) = some q → rs.contains v = false →
      q ∈ dedupRound l rs := by
  intro l
  induction l with
  | nil => intro rs q hq; simp at hq
  | cons item rest ih =>
    intro rs q hq hrs
    by_cases hf : (item.url == some v) = true
    · rw [@List.find?_cons_of_pos _ (fun p => p.url == some v) item rest hf] at hq
      have hq2 : item = q := Option.some.inj hq
      subst hq2
      have hiu : item.url = some v := by simpa using hf
      have ht : urlTruthy item = true := (urlTruthy_iff item).mpr ⟨v, hiu, hv⟩
      have hud : urlD item = v := urlD_eq item v hiu
      rw [dedupRound, if_neg (by rw [hud, hrs]; simp), if_pos ht]
      exact List.mem_cons_self _ _
    · rw [@List.find?_cons_of_neg _ (fun p => p.url == some v) item rest hf] at hq
      by_cases ht : urlTruthy item = true
      · obtain ⟨u, huu, hune⟩ := (urlTruthy_iff item).mp ht
        have hud : urlD item = u := urlD_eq item u huu
        have hneq : ¬ v = u := fun he => hf (by rw [huu, he]; simp)
        have hvu : (v == u) = false := by simp [hneq]
        by_cases hc : rs.contains u = true
        · rw [dedupRound, if_pos (by rw [ht, hud, hc]; rfl)]
          exact ih rs q hq hrs
        · have hc2 : rs.contains u = false := by simpa using hc
          rw [dedupRound, if_neg (by rw [hud, hc2]; simp), if_pos ht]
          refine List.mem_cons_of_mem _ (ih _ q hq ?_)
          rw [hud, List.contains_cons, hvu, hrs]
          rfl
      · have ht2 : urlTruthy item = false := by simpa using ht
        rw [dedupRound, if_neg (by rw [ht2]; simp), if_neg ht]
        exact List.mem_cons_of_mem _ (ih rs q hq hrs)

theorem find?_filter_of_imp {α : Type} (f g : α → Bool)
    (himp : ∀ x, f x = true → g x = true) :
    ∀ (l : List α) (q : α), l.find? f = some q → (l.filter g).find? f = some q := by
  intro l
  induction l with
  | nil => intro q hq; simp at hq
  | cons a rest ih =>
    intro q hq
    by_cases hf : f a = true
    · rw [List.find?_cons_of_pos _ hf] at hq
      rw [List.filter_cons_of_pos (himp a hf), List.find?_cons_of_pos _ hf]
      exact hq
    · rw [List.find?_cons_of_neg _ hf] at hq
      by_cases hg : g a = true
      · rw [List.filter_cons_of_pos hg, List.find?_cons_of_neg _ hf]
        exact ih q hq
      · rw [List.filter_cons_of_neg (by simpa using hg)]
        exact ih q hq

theorem url_beq_false_of_not_truthy (item : Product) (v : String) (hv : v ≠ "")
    (ht2 : urlTruthy item = false) : (item.url == some v) = false := by
  cases hx : item.url with
  | none => simp
  | some u2 =>
    have hemp : strIsEmpty u2 = true := by
      rw [urlTruthy, hx] at ht2
      simpa using ht2
    have hu2 : u2 = "" := by
      cases u2 with
      | mk d =>
        cases d with
        | nil => rfl
        | cons a b => exact absurd hemp (by simp [strIsEmpty])
    subst hu2
    simp [Ne.symm hv]

theorem lineUserLoop_count (inc exc : List String) (ra ob : Bool)
    (regs : Option (List String)) (v : String) (hv : v ≠ "") :
    ∀ (l : List Product) (s : List String),
      (s.contains v = true → countUrl v (lineUserLoop inc exc ra ob regs l s).1 = 0) ∧
      countUrl v (lineUserLoop inc exc ra ob regs l s).1 ≤ 1 := by
  intro l
  induction l with
  | nil => intro s; simp [lineUserLoop, countUrl]
  | cons item rest ih =>
    intro s
    by_cases hskip : (urlTruthy item && s.contains (urlD item)) = true
    · simp only [lineUserLoop, if_pos hskip]
      exact ih s
    · by_cases hfilt : (filter_products [item] inc exc ra ob regs).isEmpty = true
      · simp only [lineUserLoop, if_neg hskip, if_pos hfilt]
        exact ih s
      · simp only [lineUserLoop, if_neg hskip, if_neg hfilt]
        by_cases ht : urlTruthy item = true
        · obtain ⟨u, huu, hune⟩ := (urlTruthy_iff item).mp ht
          have hud : urlD item = u := urlD_eq item u huu
          rw [if_pos ht]
          by_cases huv : u = v
          · subst huv
            have h0 := (ih (urlD item :: s)).1 (by rw [hud, List.contains_cons]; simp)
            constructor
            · intro hcv
              exact absurd (show (urlTruthy item && s.contains (urlD item)) = true by
                rw [ht, hud, hcv]; rfl) hskip
            · rw [countUrl_cons, h0]
              simp [huu]
          · have hne2 : (item.url == some v) = false := by rw [huu]; simp [huv]
            constructor
            · intro hcv
              have h0 := (ih (urlD item :: s)).1 (by rw [List.contains_cons, hcv]; simp)
              rw [countUrl_cons, h0, hne2]
              simp
            · rw [countUrl_cons, hne2]
              simpa using (ih (urlD item :: s)).2
        · have ht2 : urlTruthy item = false := by simpa using ht
          rw [if_neg ht]
          have hne2 := url_beq_false_of_not_truthy item v hv ht2
          constructor
          · intro hcv
            rw [countUrl_cons, (ih s).1 hcv, hne2]
            simp
          · rw [countUrl_cons, hne2]
            simpa using (ih s).2

theorem contains_iff_mem_str (l : List String) (v : String) :
    l.contains v = true ↔ v ∈ l := by
  simp

theorem broadcastNotify_count_le_one (ra sep : Bool) (filtered : List Product)
    (seen : List String) (v : String) (hv : v ≠ "") :
    countUrl v (broadcastNotify ra sep filtered seen).1 ≤ 1 := by
  rw [broadcastNotify, notifyLoop_sent]
  calc countUrl v ((dedupRound (to_notify_raw filtered sep seen) []).filter
        (fun p => !(ra && p.unavailable)))
      ≤ countUrl v (dedupRound (to_notify_raw filtered sep seen) []) :=
        List.Sublist.countP_le _ (List.filter_sublist _)
    _ ≤ 1 := (dedupRound_count v hv _ []).2

theorem broadcastRound_seen_zero (inc exc : List String) (ra ob : Bool)
    (r : List Product) (seen : List String) (v : String)
    (hc : seen.contains v = true) :
    countUrl v (broadcastRound inc exc ra ob false r seen).1 = 0 ∧
    v ∈ (broadcastRound inc exc ra ob false r seen).2 := by
  constructor
  · have h0 : countUrl v (to_notify_raw (filter_products r inc exc ra ob none) false seen) = 0 :=
      to_notify_raw_count_zero _ _ _ hc
    have h1 : countUrl v (dedupRound
        (to_notify_raw (filter_products r inc exc ra ob none) false seen) []) ≤
        countUrl v (to_notify_raw (filter_products r inc exc ra ob none) false seen) :=
      List.Sublist.countP_le _ (dedupRound_sublist _ [])
    have h2 : countUrl v (broadcastRound inc exc ra ob false r seen).1 ≤
        countUrl v (dedupRound
          (to_notify_raw (filter_products r inc exc ra ob none) false seen) []) := by
      rw [broadcastRound, broadcastNotify, notifyLoop_sent]
      exact List.Sublist.countP_le _ (List.filter_sublist _)
    omega
  · exact notifyLoop_seen_mono _ _ _ _ _ ((contains_iff_mem_str _ _).mp hc)

theorem broadcastRound_sent_seen (inc exc : List String) (ra ob : Bool)
    (r : List Product) (seen : List String) (v : String) (hv : v ≠ "")
    (h1 : 1 ≤ countUrl v (broadcastRound inc exc ra ob false r seen).1) :
    v ∈ (broadcastRound inc exc ra ob false r seen).2 := by
  rw [countUrl] at h1
  have h2 : 0 < List.countP (fun p => p.url == some v)
      (broadcastRound inc exc ra ob false r seen).1 := by omega
  obtain ⟨p, hp, hbeq⟩ := List.countP_pos_iff.mp h2
  exact notifyLoop_seen_of_sent ra _ _ p v hp (by simpa using hbeq) hv

theorem runRounds_count (inc exc : List String) (ra ob : Bool) (v : String) (hv : v ≠ "") :
    ∀ (rounds : List (List Product)) (seen : List String),
      countUrl v (runRounds inc exc ra ob false rounds seen).1.flatten ≤ 1 ∧
      (seen.contains v = true →
        countUrl v (runRounds inc exc ra ob false rounds seen).1.flatten = 0) := by
  intro rounds
  induction rounds with
  | nil => intro seen; simp [runRounds, countUrl]
  | cons r rs ih =>
    intro seen
    have hflat : ∀ (a : List Product) (ls : List (List Product)),
        countUrl v (a :: ls).flatten = countUrl v a + countUrl v ls.flatten := by
      intro a ls
      simp [countUrl, List.countP_append]
    have hgoal : (runRounds inc exc ra ob false (r :: rs) seen).1 =
        (broadcastRound inc exc ra ob false r seen).1 ::
          (runRounds inc exc ra ob false rs (broadcastRound inc exc ra ob false r seen).2).1 := by
      simp only [runRounds]
    rw [hgoal, hflat]
    set seen2 := (broadcastRound inc exc ra ob false r seen).2 with hseen2
    constructor
    · by_cases hc : seen.contains v = true
      · obtain ⟨hz, hmem⟩ := broadcastRound_seen_zero inc exc ra ob r seen v hc
        have hz2 := (ih seen2).2 ((contains_iff_mem_str _ _).mpr hmem)
        omega
      · have hle1 : countUrl v (broadcastRound inc exc ra ob false r seen).1 ≤ 1 :=
          broadcastNotify_count_le_one ra false (filter_products r inc exc ra ob none) seen v hv
        by_cases h1 : 1 ≤ countUrl v (broadcastRound inc exc ra ob false r seen).1
        · have hmem := broadcastRound_sent_seen inc exc ra ob r seen v hv h1
          have hz2 := (ih seen2).2 ((contains_iff_mem_str _ _).mpr hmem)
          omega
        · have hle2 := (ih seen2).1
          omega
    · intro hc
      obtain ⟨hz, hmem⟩ := broadcastRound_seen_zero inc exc ra ob r seen v hc
      have hz2 := (ih seen2).2 ((contains_iff_mem_str _ _).mpr hmem)
      omega

/-- C2: with notify-every-poll disabled, a url is broadcast at most once
over the whole process: across any sequence of rounds starting from the
empty global seen set, at most one sent item carries it; a url present in
the seen set is excluded from to_notify_raw; and a url of any sent item is
in the seen set after its round. -/
theorem C2_broadcast_global_dedup (inc exc : List String) (ra ob : Bool)
    (rounds : List (List Product)) (v : String) (hv : v ≠ "") :
    countUrl v (runRounds inc exc ra ob false rounds []).1.flatten ≤ 1 ∧
    (∀ (filtered : List Product) (seen : List String), seen.contains v = true →
      countUrl v (to_notify_raw filtered false seen) = 0) ∧
    (∀ (filtered : List Product) (seen : List String) (p : Product),
      p ∈ (broadcastNotify ra false filtered seen).1 → p.url = some v →
      v ∈ (broadcastNotify ra false filtered seen).2) := by
  refine ⟨(runRounds_count inc exc ra ob v hv rounds []).1, ?_, ?_⟩
  · intro filtered seen hc
    exact to_notify_raw_count_zero filtered seen v hc
  · intro filtered seen p hp hurl
    exact notifyLoop_seen_of_sent ra _ _ p v hp hurl hv

/-- Witness for C2: the same product offered in two successive rounds is
broadcast at most once. -/
theorem C2_broadcast_global_dedup_witness :
    countUrl "https://www.hermes.com/product/w"
      (runRounds ["kelly"] [] true true false [[wProduct], [wProduct]] []).1.flatten ≤ 1 := by
  exact (C2_broadcast_global_dedup ["kelly"] [] true true [[wProduct], [wProduct]]
    "https://www.hermes.com/product/w" (by decide)).1

/-- C3: within one round, a url is broadcast at most once and sent to one
LINE recipient at most once, whatever catalog variants repeated it in the
merged list; the per-recipient per-round seen set starts empty every round
(`line_round_seen` is cleared at the top of the loop). -/
theorem C3_round_internal_dedup (inc exc : List String) (ra ob sep : Bool)
    (regs : Option (List String)) (combined : List Product) (seen : List String)
    (v : String) (hv : v ≠ "") :
    countUrl v (broadcastRound inc exc ra ob sep combined seen).1 ≤ 1 ∧
    countUrl v (lineUserRound inc exc ra ob regs combined) ≤ 1 := by
  constructor
  · exact broadcastNotify_count_le_one ra sep
      (filter_products combined inc exc ra ob none) seen v hv
  · exact (lineUserLoop_count inc exc ra ob regs v hv combined []).2

/-- Witness for C3: the same product arriving from two merged catalog
variants is broadcast once and LINE-notified once. -/
theorem C3_round_internal_dedup_witness :
    countUrl "https://www.hermes.com/product/w"
      (broadcastRound ["kelly"] [] true true false [wProduct, wProduct] []).1 ≤ 1 ∧
    countUrl "https://www.hermes.com/product/w"
      (lineUserRound ["kelly"] [] true true none [wProduct, wProduct]) ≤ 1 := by
  exact C3_round_internal_dedup ["kelly"] [] true true false none [wProduct, wProduct] []
    "https://www.hermes.com/product/w" (by decide)

/-- C10: in the broadcast send loop with notify-every-poll disabled, the
items sent are exactly those passing the availability re-check; a url is in
the final seen set exactly when it was already seen or belongs to an item
that passed the re-check, so a skipped unavailable item leaves the seen set
unchanged; and a url not in the seen set whose first filtered occurrence is
available is sent by a later round's loop. -/
theorem C10_seen_frame_effect (ra : Bool) (to_notify : List Product)
    (seen : List String) (v : String) (hv : v ≠ "") :
    (notifyLoop ra false to_notify seen).1 =
      to_notify.filter (fun p => !(ra && p.unavailable)) ∧
    (v ∈ (notifyLoop ra false to_notify seen).2 ↔
      v ∈ seen ∨ ∃ p ∈ to_notify,
        (ra && p.unavailable) = false ∧ p.url = some v ∧ v ≠ "") ∧
    (∀ (filtered2 : List Product) (seen2 : List String) (q : Product),
      filtered2.find? (fun p => p.url == some v) = some q →
      q.unavailable = false → seen2.contains v = false →
      ∃ p ∈ (broadcastNotify ra false filtered2 seen2).1, p.url = some v) := by
  refine ⟨notifyLoop_sent ra false to_notify seen,
    notifyLoop_seen_char ra to_notify seen v, ?_⟩
  intro filtered2 seen2 q hfind hqa hs2
  have himp : ∀ x : Product, (x.url == some v) = true →
      (!seenHas seen2 x.url) = true := by
    intro x hx
    have hxu : x.url = some v := by simpa using hx
    rw [hxu, show seenHas seen2 (some v) = seen2.contains v from rfl, hs2]
    rfl
  have hfind2 := find?_filter_of_imp _ _ himp filtered2 q hfind
  have hq_to : q ∈ dedupRound (to_notify_raw filtered2 false seen2) [] :=
    dedupRound_keeps_first v hv _ [] q hfind2 rfl
  have hpass : (!(ra && q.unavailable)) = true := by rw [hqa]; simp
  refine ⟨q, ?_, ?_⟩
  · rw [broadcastNotify, notifyLoop_sent]
    exact List.mem_filter.mpr ⟨hq_to, hpass⟩
  · simpa using List.find?_some hfind

/-- Witness for C10 at a concrete available product. -/
theorem C10_seen_frame_effect_witness :
    ∃ p ∈ (broadcastNotify true false [wProduct] []).1,
      p.url = some "https://www.hermes.com/product/w" := by
  exact (C10_seen_frame_effect true [wProduct] [] "https://www.hermes.com/product/w"
    (by decide)).2.2 [wProduct] [] wProduct (by decide) rfl rfl

end Hermes
